import Mathlib

/-!
Verification of the rate-limiter core (src/src/services/rateLimiter.js,
src/config/limits.js, src/utils/fallback.js) against its specification.

Shallow embedding conventions:
* JS numbers are modelled as rationals (`ℚ`); `Math.floor` / `Math.ceil` /
  Lua `math.ceil` are `Int.floor` / `Int.ceil`.
* The keyed bucket store (Redis hash / in-memory `Map`) is a function
  `String → Option Bucket`; stateful methods take the store and return the
  updated store explicitly.
* Fallible store access is an `Except` parameter; a JS `try/catch` becomes a
  `match` on it.
* Division by zero in ℚ yields 0 where JS/Lua would yield Infinity (only
  reachable when `refillRate = 0`; no theorem below depends on that case).
-/

/-- Bucket state stored per key: `{tokens, lastRefill}` (rateLimiter.js
stores `tokens` and `lastRefill`; the fallback additionally stores an
`expiresAt` used only by the periodic sweep, which no claim touches). -/
structure Bucket where
  tokens : ℚ
  lastRefill : ℚ
deriving DecidableEq

/-- The `remaining` field of a decision: a finite integer (the JS code
returns `Math.floor(remaining)`) or `Infinity` (unlimited tier). -/
inductive Rem where
  | fin (n : ℤ)
  | inf
deriving DecidableEq

/-- Decision object `{allowed, remaining, retryAfter}` returned by
`checkRateLimit` / `processRedis` / `processFallback`. -/
structure Decision where
  allowed : Bool
  remaining : Rem
  retryAfter : ℤ
deriving DecidableEq

/-- `Rem.nonneg r` says a remaining value is not negative (Infinity counts
as non-negative). -/
def Rem.nonneg : Rem → Prop
  | .fin n => 0 ≤ n
  | .inf => True

instance : DecidablePred Rem.nonneg := fun r => by
  cases r <;> simp [Rem.nonneg] <;> infer_instance

/-- Lines 134-146 of `processFallback`: the consume-and-store block,
applied to the already-refilled token count (`allowed = tokens >= cost`;
on admit `remaining = max(0, tokens - cost)`, on denial
`retryAfter = max(0, ceil((cost - tokens)/refillRate))`; the bucket
written back holds `remaining` and the decision carries
`Math.floor(remaining)`). -/
def fallbackConsume (tokens lastRefill refillRate cost : ℚ) : Decision × Bucket :=
  if cost ≤ tokens then
    (⟨true, .fin ⌊max 0 (tokens - cost)⌋, 0⟩, ⟨max 0 (tokens - cost), lastRefill⟩)
  else
    (⟨false, .fin ⌊tokens⌋, max 0 ⌈(cost - tokens) / refillRate⌉⟩, ⟨tokens, lastRefill⟩)

/-- `processFallback(key, now, capacity, refillRate, cost, window)` from
rateLimiter.js lines 121-148, with the store read/write made explicit:
the function takes the bucket currently stored under the key (`none` when
the key is absent) and returns the decision together with the bucket it
writes back.  Note: `timePassed = now - bucket.lastRefill` is NOT clamped
at zero. -/
def processFallback (bucket : Option Bucket) (now capacity refillRate cost : ℚ) :
    Decision × Bucket :=
  match bucket with
  | none => fallbackConsume capacity now refillRate cost
  | some b =>
    fallbackConsume (min capacity (b.tokens + (now - b.lastRefill) * refillRate))
      now refillRate cost

/-- Lines 90-105 of the Lua script: the consume-and-store block on the
refilled token count, composed with the JS result mapping (`allowed =
result[0] === 1`, `remaining = Math.floor(result[1])`, `retryAfter =
result[2]`).  Unlike the fallback, neither the admitted remaining nor the
retryAfter is clamped at zero here. -/
def redisConsume (tokens lastRefill refillRate cost : ℚ) : Decision × Bucket :=
  if cost ≤ tokens then
    (⟨true, .fin ⌊tokens - cost⌋, 0⟩, ⟨tokens - cost, lastRefill⟩)
  else
    (⟨false, .fin ⌊tokens⌋, ⌈(cost - tokens) / refillRate⌉⟩, ⟨tokens, lastRefill⟩)

/-- The Lua script executed by `processRedis` (rateLimiter.js lines 68-118)
plus the JS wrapper that maps its `{allowed, remaining, retryAfter}` reply
to a Decision.  Reads the bucket stored under the key and returns the
decision with the bucket written back by `HMSET`.  The Lua script clamps
neither `timePassed` nor the denied `remaining`. -/
def processRedis (bucket : Option Bucket) (now capacity refillRate cost : ℚ) :
    Decision × Bucket :=
  match bucket with
  | none => redisConsume capacity now refillRate cost
  | some b =>
    redisConsume (min capacity (b.tokens + (now - b.lastRefill) * refillRate))
      now refillRate cost

/-- Refinement reference for claim C2 only: the check-and-consume
arithmetic as the spec writes it (spec.md §4.2), identical to
`processFallback` except that the elapsed time is clamped:
`elapsed = max(0, now - lastRefillAt)`. -/
def processFallbackClamped (bucket : Option Bucket) (now capacity refillRate cost : ℚ) :
    Decision × Bucket :=
  match bucket with
  | none => fallbackConsume capacity now refillRate cost
  | some b =>
    fallbackConsume (min capacity (b.tokens + (max 0 (now - b.lastRefill)) * refillRate))
      now refillRate cost

/-- Refinement reference for claim C2 only: the Lua-script arithmetic with
the spec's clamped elapsed time, identical to `processRedis` otherwise. -/
def processRedisClamped (bucket : Option Bucket) (now capacity refillRate cost : ℚ) :
    Decision × Bucket :=
  match bucket with
  | none => redisConsume capacity now refillRate cost
  | some b =>
    redisConsume (min capacity (b.tokens + (max 0 (now - b.lastRefill)) * refillRate))
      now refillRate cost

/-! ## Configuration (src/config/limits.js) -/

/-- One endpoint entry of `LIMITS.endpoints`:
`{requests, window, burst, cost}`. -/
structure EndpointConfig where
  requests : ℚ
  window : ℚ
  burst : ℚ
  cost : ℚ
deriving DecidableEq

/-- `LIMITS.slowStart`: `{enabled, durationSeconds, startMultiplier}`. -/
structure SlowStartConfig where
  enabled : Bool
  durationSeconds : ℚ
  startMultiplier : ℚ
deriving DecidableEq

/-- The parts of the `LIMITS` object that `checkRateLimit` and
`getSlowStartMultiplier` read (the tier and region tables are embedded as
the lookup functions `tierMultiplier` / `regionMultiplier` below, which
fold in the JS `||`-defaulting). -/
structure LimitsConfig where
  endpoints : String → Option EndpointConfig
  slowStart : SlowStartConfig

/-- `LIMITS.endpoints` from limits.js. -/
def endpointsTable : String → Option EndpointConfig := fun e =>
  if e = "/api/search" then some ⟨100, 60, 20, 1⟩
  else if e = "/api/checkout" then some ⟨10, 60, 2, 5⟩
  else if e = "/api/profile" then some ⟨50, 60, 10, 1⟩
  else none

/-- The `LIMITS` object of limits.js (`slowStart = {enabled: true,
durationSeconds: 300, startMultiplier: 0.5}`). -/
def LIMITS : LimitsConfig := ⟨endpointsTable, ⟨true, 300, 1/2⟩⟩

/-- `LIMITS.tiers[tier] || 1` (rateLimiter.js line 35) evaluated against the
table `{free: 1, premium: 3, enterprise: 10, unlimited: Infinity}`: a
missing tier is `undefined`, hence falsy, hence 1.  The `unlimited` entry
(Infinity) is unreachable through `checkRateLimit`, which returns before
this lookup when `tier === 'unlimited'`; total-function fidelity is only
needed on the reachable tiers. -/
def tierMultiplier (tier : String) : ℚ :=
  if tier = "free" then 1
  else if tier = "premium" then 3
  else if tier = "enterprise" then 10
  else 1

/-- `LIMITS.regions[region] || LIMITS.regions.default` (rateLimiter.js line
36) against the table `{us-east: 1.0, us-west: 1.0, eu-west: 0.8, ap-south:
0.6, default: 1.0}`: an unknown region (and the literal region "default")
yields the default 1.0. -/
def regionMultiplier (region : String) : ℚ :=
  if region = "us-east" then 1
  else if region = "us-west" then 1
  else if region = "eu-west" then 4/5
  else if region = "ap-south" then 3/5
  else 1

/-- `generateKey(userId, endpoint)` from rateLimiter.js lines 188-191:
replaces every `/` in the endpoint by `:` and prepends `ratelimit:<userId>`. -/
def generateKey (userId endpoint : String) : String :=
  "ratelimit:" ++ userId ++ (endpoint.map fun c => if c = '/' then ':' else c)

/-- Which backend the store routing selects on this call
(`this.useFallback || !redisClient.isHealthy()`, line 53). -/
inductive Backend where
  | redis
  | fallback
deriving DecidableEq

/-- The arguments the store path is invoked with (key, now, capacity,
refillRate, cost, window) — recorded so theorems can speak about what was
passed to the Atomic State Store.  `none` means the store was never
reached on the call. -/
structure StoreCall where
  key : String
  now : ℚ
  capacity : ℚ
  refillRate : ℚ
  cost : ℚ
  window : ℚ
deriving DecidableEq

/-- `checkRateLimit(userId, endpoint, tier, region, requestCost)` from
rateLimiter.js lines 25-66.  Explicit-state embedding:

* `slowStartMultiplier` is the value `await this.getSlowStartMultiplier`
  resolves to (it depends on a separate store namespace and `Date.now()`);
* `now` is `Date.now() / 1000`;
* `backend` is the routing decision of line 53;
* `storeOk = false` means the store path threw, landing in the `catch` of
  lines 62-65 (the store effects of the failed call are not modelled);
* the bucket store is passed in and the updated store is returned,
  together with the `StoreCall` made (if any).

The fail-open decision of line 64 returns `remaining: maxTokens` — the
multiplied base capacity WITHOUT the burst portion. -/
def checkRateLimit (userId endpoint tier region : String) (requestCost : ℚ)
    (slowStartMultiplier : ℚ) (now : ℚ) (backend : Backend) (storeOk : Bool)
    (store : String → Option Bucket) :
    Decision × (String → Option Bucket) × Option StoreCall :=
  if tier = "unlimited" then
    (⟨true, .inf, 0⟩, store, none)
  else
    match LIMITS.endpoints endpoint with
    | none => (⟨true, .fin 1000, 0⟩, store, none)
    | some endpointConfig =>
      let tierM := tierMultiplier tier
      let regionM := regionMultiplier region
      let maxTokens : ℤ := ⌊endpointConfig.requests * tierM * regionM * slowStartMultiplier⌋
      let burstTokens : ℤ := ⌊endpointConfig.burst * tierM⌋
      let totalCapacity : ℚ := (maxTokens : ℚ) + (burstTokens : ℚ)
      let refillRate : ℚ := (maxTokens : ℚ) / endpointConfig.window
      let cost : ℚ := (if endpointConfig.cost = 0 then 1 else endpointConfig.cost) * requestCost
      let key := generateKey userId endpoint
      if storeOk then
        let pr :=
          match backend with
          | .fallback => processFallback (store key) now totalCapacity refillRate cost
          | .redis => processRedis (store key) now totalCapacity refillRate cost
        (pr.1, fun k => if k = key then some pr.2 else store k,
         some ⟨key, now, totalCapacity, refillRate, cost, endpointConfig.window⟩)
      else
        (⟨true, .fin maxTokens, 0⟩, store, none)

/-- A configuration object passed to `updateConfig`; a `none` field models
a JS-falsy (`null`/absent) section. -/
structure ConfigUpdate where
  endpoints : Option (String → Option EndpointConfig)
  tiers : Option (String → Option ℚ)

/-- `updateConfig(newLimits)` from rateLimiter.js lines 194-200.  The JS
body only validates and logs: it performs no assignment, so the active
configuration (the module-level `LIMITS` read by `checkRateLimit`) is
threaded through explicitly and returned unchanged on BOTH branches. -/
def updateConfig (active : α) (newLimits : ConfigUpdate) : Bool × α :=
  if newLimits.endpoints.isSome && newLimits.tiers.isSome then
    (true, active)
  else
    (false, active)

/-- `getSlowStartMultiplier(userId)` from rateLimiter.js lines 150-186.
`readRes` is the outcome of the store read of `slowstart:<userId>`
(`Except.error` = the read threw; `ok none` = no record; `ok (some fs)` =
a stored first-seen timestamp in milliseconds), `writeRes` the outcome of
the first-observation write, `nowMs` is `Date.now()`.  The whole body runs
inside `try { ... } catch { return 1.0 }`. -/
def getSlowStartMultiplier (cfg : SlowStartConfig) (readRes : Except Unit (Option ℤ))
    (writeRes : Except Unit Unit) (nowMs : ℤ) : ℚ :=
  if cfg.enabled = false then 1
  else
    match readRes with
    | .error _ => 1
    | .ok none =>
      match writeRes with
      | .error _ => 1
      | .ok _ => cfg.startMultiplier
    | .ok (some firstSeen) =>
      let elapsed : ℚ := ((nowMs : ℚ) - (firstSeen : ℚ)) / 1000
      if cfg.durationSeconds ≤ elapsed then 1
      else cfg.startMultiplier + (elapsed / cfg.durationSeconds) * (1 - cfg.startMultiplier)

/-! ## Sequences of check-and-consume operations on one key

Used to state the bucket invariant (claim C1) over whole call sequences. -/

/-- The per-call store arguments of one check-and-consume operation. -/
structure Op where
  now : ℚ
  capacity : ℚ
  refillRate : ℚ
  cost : ℚ
deriving DecidableEq

/-- Run a list of operations against one key through the in-memory
fallback backend, collecting after each operation the decision returned
and the bucket stored. -/
def traceFallback : Option Bucket → List Op → List (Decision × Bucket)
  | _, [] => []
  | b, op :: ops =>
    let r := processFallback b op.now op.capacity op.refillRate op.cost
    r :: traceFallback (some r.2) ops

/-- Run a list of operations against one key through the Redis Lua
backend, collecting after each operation the decision returned and the
bucket stored. -/
def traceRedis : Option Bucket → List Op → List (Decision × Bucket)
  | _, [] => []
  | b, op :: ops =>
    let r := processRedis b op.now op.capacity op.refillRate op.cost
    r :: traceRedis (some r.2) ops

/-- Non-negative capacity, refill rate and cost for one operation. -/
def OpOK (op : Op) : Prop := 0 ≤ op.capacity ∧ 0 ≤ op.refillRate ∧ 0 ≤ op.cost

/-- `chronFrom t ops`: the clock readings of `ops` are non-decreasing and
start no earlier than `t` (no clock regression along the sequence). -/
def chronFrom : ℚ → List Op → Prop
  | _, [] => True
  | t, op :: ops => t ≤ op.now ∧ chronFrom op.now ops

/-! ## Concurrency model for the fallback's per-key lock (claim C9)

`processFallback` runs inside `fallback.withLock(key, fn)`
(src/utils/fallback.js): `acquireLock` busy-waits while `locks` has the
key's lock entry, then inserts it; `withLock` runs the body and releases
in a `finally`.  Under the JS event loop a task is interrupted only at
`await` points, so the check-and-insert of `acquireLock` is one atomic
action, while the body's two awaits (`fallback.get`, `fallback.set`)
split it into a read-and-compute action and a write action.  We model `n`
simultaneous calls for one key (all with the same clock reading `t`,
capacity `cap`, refill rate `rate` and cost 1) as an interleaving of
per-thread atomic steps. -/

/-- Program counter of one in-flight `withLock(processFallback body)`
call: waiting to acquire the lock; holding it before the `fallback.get`;
holding it after computing the decision `a` and the bucket `b` it will
write; holding it after the `fallback.set`; finished with decision `a`. -/
inductive TPC where
  | waiting
  | reading
  | writing (a : Bool) (b : Bucket)
  | releasing (a : Bool)
  | done (a : Bool)
deriving DecidableEq

/-- Global state of `n` concurrent fallback calls on one key: the key's
lock entry, the key's stored bucket, and each thread's program counter. -/
structure LockState (n : ℕ) where
  lock : Bool
  bucket : Option Bucket
  tpc : Fin n → TPC

/-- All `n` calls about to start on an untouched key with no lock held. -/
def initLockState (n : ℕ) : LockState n := ⟨false, none, fun _ => .waiting⟩

/-- One atomic event-loop step of some thread `i`:

* `acquire` — `acquireLock`'s while-test observes no lock entry and
  inserts it (atomic between awaits);
* read — `fallback.get` resolves and the body computes
  `processFallback` on the observed bucket;
* write — `fallback.set` stores the computed bucket;
* release — the `finally` deletes the lock entry. -/
inductive LockStep (cap rate t : ℚ) {n : ℕ} : LockState n → LockState n → Prop
  | acquire (s : LockState n) (i : Fin n) (hpc : s.tpc i = .waiting)
      (hl : s.lock = false) :
      LockStep cap rate t s ⟨true, s.bucket, Function.update s.tpc i .reading⟩
  | read (s : LockState n) (i : Fin n) (hpc : s.tpc i = .reading) :
      LockStep cap rate t s
        ⟨s.lock, s.bucket,
         Function.update s.tpc i
           (.writing (processFallback s.bucket t cap rate 1).1.allowed
                     (processFallback s.bucket t cap rate 1).2)⟩
  | write (s : LockState n) (i : Fin n) (a : Bool) (b : Bucket)
      (hpc : s.tpc i = .writing a b) :
      LockStep cap rate t s ⟨s.lock, some b, Function.update s.tpc i (.releasing a)⟩
  | release (s : LockState n) (i : Fin n) (a : Bool)
      (hpc : s.tpc i = .releasing a) :
      LockStep cap rate t s ⟨false, s.bucket, Function.update s.tpc i (.done a)⟩

/-- A thread that has (already) decided to admit its request. -/
def TPC.admits : TPC → Bool
  | .waiting => false
  | .reading => false
  | .writing a _ => a
  | .releasing a => a
  | .done a => a

/-- A thread inside the lock-protected region. -/
def TPC.inCS : TPC → Bool
  | .waiting => false
  | .reading => true
  | .writing _ _ => true
  | .releasing _ => true
  | .done _ => false

/-- Number of threads whose request has been admitted so far. -/
def admittedCount {n : ℕ} (s : LockState n) : ℕ :=
  ∑ i : Fin n, (if (s.tpc i).admits then 1 else 0)

/-- Reachability of a global state from `initLockState` by interleaving
the atomic steps of the `n` threads in any order. -/
def lockReachable (cap rate t : ℚ) {n : ℕ} (s : LockState n) : Prop :=
  Relation.ReflTransGen (LockStep cap rate t) (initLockState n) s

/-- Chronology precondition for a run starting from stored state `b`: the
operation clocks are non-decreasing, and (when a bucket is already
stored) not earlier than its `lastRefill`. -/
def chronOK : Option Bucket → List Op → Prop
  | none, [] => True
  | none, op :: ops => chronFrom op.now ops
  | some x, ops => chronFrom x.lastRefill ops

/-- Inductive invariant of the lock model: at most one thread is inside
the lock-protected region; the lock flag agrees with occupancy; every
stored or about-to-be-written bucket carries `lastRefill = t`; the
admitted count never exceeds the capacity; and the token account balances
— `tokens = cap - admitted`, held by the pending write when one exists,
by the stored bucket otherwise (a still-untouched key means nothing was
admitted yet). -/
structure LockInv (cap t : ℚ) {n : ℕ} (s : LockState n) : Prop where
  mutex : ∀ i j : Fin n, (s.tpc i).inCS = true → (s.tpc j).inCS = true → i = j
  unlocked : s.lock = false → ∀ i, (s.tpc i).inCS = false
  bucketTime : ∀ b, s.bucket = some b → b.lastRefill = t
  writerTime : ∀ i a b, s.tpc i = .writing a b → b.lastRefill = t
  admitted_le : (admittedCount s : ℚ) ≤ cap
  writerTokens : ∀ i a b, s.tpc i = .writing a b → b.tokens = cap - admittedCount s
  storeTokens : (∀ i : Fin n, ∀ a b, s.tpc i ≠ TPC.writing a b) →
    (∀ b, s.bucket = some b → b.tokens = cap - admittedCount s) ∧
    (s.bucket = none → admittedCount s = 0)

/-! ## Concrete scenarios referenced by the claims -/

/-- A well-formed replacement endpoint table (used to exercise
`updateConfig` with a valid configuration). -/
def newEndpointsTable : String → Option EndpointConfig := fun e =>
  if e = "/api/search" then some ⟨1, 60, 0, 1⟩ else none

/-- A well-formed replacement tier table. -/
def newTiersTable : String → Option ℚ := fun t =>
  if t = "free" then some 1 else none

/-- Spec §8 checkout scenario, first check: endpoint `/api/checkout`
(`{requests: 10, window: 60, burst: 2, cost: 5}`), tier `free`, region
`default`, slow-start multiplier resolved to 1, on a fresh key through
the fallback backend. -/
def c6check1 : Decision × (String → Option Bucket) × Option StoreCall :=
  checkRateLimit "alice" "/api/checkout" "free" "default" 1 1 1000 .fallback true
    (fun _ => none)

/-- Second instantaneous check of the checkout scenario (same clock
reading, store produced by the first check). -/
def c6check2 : Decision × (String → Option Bucket) × Option StoreCall :=
  checkRateLimit "alice" "/api/checkout" "free" "default" 1 1 1000 .fallback true
    c6check1.2.1

/-- Third instantaneous check of the checkout scenario. -/
def c6check3 : Decision × (String → Option Bucket) × Option StoreCall :=
  checkRateLimit "alice" "/api/checkout" "free" "default" 1 1 1000 .fallback true
    c6check2.2.1

/-! ## Theorems -/

/-- The fallback consume block keeps tokens within `[0, cap]` and returns
a non-negative remaining, for any refilled token count in `[0, cap]`. -/
theorem fallbackConsume_inv (t0 lastRefill rate cost cap : ℚ)
    (hcap : 0 ≤ cap) (hcost : 0 ≤ cost) (h0 : 0 ≤ t0) (htop : t0 ≤ cap) :
    0 ≤ (fallbackConsume t0 lastRefill rate cost).2.tokens ∧
    (fallbackConsume t0 lastRefill rate cost).2.tokens ≤ cap ∧
    (fallbackConsume t0 lastRefill rate cost).2.lastRefill = lastRefill ∧
    (fallbackConsume t0 lastRefill rate cost).1.remaining.nonneg := by
  unfold fallbackConsume
  by_cases hc : cost ≤ t0
  · rw [if_pos hc]
    exact ⟨le_max_left 0 _, max_le hcap (by linarith), rfl,
      Int.floor_nonneg.mpr (le_max_left 0 _)⟩
  · rw [if_neg hc]
    exact ⟨h0, htop, rfl, Int.floor_nonneg.mpr h0⟩

/-- The Lua consume block keeps tokens within `[0, cap]` and returns a
non-negative remaining, for any refilled token count in `[0, cap]` and
non-negative cost. -/
theorem redisConsume_inv (t0 lastRefill rate cost cap : ℚ)
    (_hcap : 0 ≤ cap) (hcost : 0 ≤ cost) (h0 : 0 ≤ t0) (htop : t0 ≤ cap) :
    0 ≤ (redisConsume t0 lastRefill rate cost).2.tokens ∧
    (redisConsume t0 lastRefill rate cost).2.tokens ≤ cap ∧
    (redisConsume t0 lastRefill rate cost).2.lastRefill = lastRefill ∧
    (redisConsume t0 lastRefill rate cost).1.remaining.nonneg := by
  unfold redisConsume
  by_cases hc : cost ≤ t0
  · rw [if_pos hc]
    exact ⟨by dsimp only; linarith, by dsimp only; linarith, rfl,
      Int.floor_nonneg.mpr (by linarith)⟩
  · rw [if_neg hc]
    exact ⟨h0, htop, rfl, Int.floor_nonneg.mpr h0⟩

/-- The refilled token count both backends feed into their consume block
lies in `[0, cap]` when the clock has not regressed. -/
theorem refilled_tokens_bounds (x : Bucket) (now cap rate : ℚ)
    (hcap : 0 ≤ cap) (hrate : 0 ≤ rate) (hx0 : 0 ≤ x.tokens)
    (hxr : x.lastRefill ≤ now) :
    0 ≤ min cap (x.tokens + (now - x.lastRefill) * rate) ∧
    min cap (x.tokens + (now - x.lastRefill) * rate) ≤ cap :=
  ⟨le_min hcap (add_nonneg hx0 (mul_nonneg (by linarith) hrate)), min_le_left _ _⟩

/-- One fallback operation preserves the bucket invariant, provided its
parameters are non-negative and its clock is not behind the stored
`lastRefill`. -/
theorem processFallback_step (b : Option Bucket) (now cap rate cost : ℚ)
    (hcap : 0 ≤ cap) (hrate : 0 ≤ rate) (hcost : 0 ≤ cost)
    (hb : ∀ x ∈ b, 0 ≤ x.tokens ∧ x.lastRefill ≤ now) :
    0 ≤ (processFallback b now cap rate cost).2.tokens ∧
    (processFallback b now cap rate cost).2.tokens ≤ cap ∧
    (processFallback b now cap rate cost).2.lastRefill = now ∧
    (processFallback b now cap rate cost).1.remaining.nonneg := by
  cases b with
  | none => exact fallbackConsume_inv cap now rate cost cap hcap hcost hcap le_rfl
  | some x =>
    obtain ⟨hx0, hxr⟩ := hb x rfl
    obtain ⟨h0, htop⟩ := refilled_tokens_bounds x now cap rate hcap hrate hx0 hxr
    exact fallbackConsume_inv _ now rate cost cap hcap hcost h0 htop

/-- One Redis Lua operation preserves the bucket invariant, provided its
parameters are non-negative and its clock is not behind the stored
`lastRefill`. -/
theorem processRedis_step (b : Option Bucket) (now cap rate cost : ℚ)
    (hcap : 0 ≤ cap) (hrate : 0 ≤ rate) (hcost : 0 ≤ cost)
    (hb : ∀ x ∈ b, 0 ≤ x.tokens ∧ x.lastRefill ≤ now) :
    0 ≤ (processRedis b now cap rate cost).2.tokens ∧
    (processRedis b now cap rate cost).2.tokens ≤ cap ∧
    (processRedis b now cap rate cost).2.lastRefill = now ∧
    (processRedis b now cap rate cost).1.remaining.nonneg := by
  cases b with
  | none => exact redisConsume_inv cap now rate cost cap hcap hcost hcap le_rfl
  | some x =>
    obtain ⟨hx0, hxr⟩ := hb x rfl
    obtain ⟨h0, htop⟩ := refilled_tokens_bounds x now cap rate hcap hrate hx0 hxr
    exact redisConsume_inv _ now rate cost cap hcap hcost h0 htop

/-- The bucket invariant along a whole fallback run: every stored bucket
is within `[0, capacity-of-that-operation]` and every returned remaining
is non-negative, provided parameters are non-negative and the clocks
never regress. -/
theorem traceFallback_inv (ops : List Op) : ∀ (b : Option Bucket),
    (∀ op ∈ ops, OpOK op) → chronOK b ops → (∀ x ∈ b, 0 ≤ x.tokens) →
    ∀ p ∈ ops.zip (traceFallback b ops),
      0 ≤ p.2.2.tokens ∧ p.2.2.tokens ≤ p.1.capacity ∧ p.2.1.remaining.nonneg := by
  induction ops with
  | nil => intro b _ _ _ p hp; simp [traceFallback] at hp
  | cons op ops ih =>
    intro b hok hchron hb p hp
    obtain ⟨hcap, hrate, hcost⟩ := hok op (List.mem_cons_self op ops)
    have hpre : (∀ x ∈ b, 0 ≤ x.tokens ∧ x.lastRefill ≤ op.now) ∧ chronFrom op.now ops := by
      cases b with
      | none => exact ⟨by simp, hchron⟩
      | some x =>
        have h1 : x.lastRefill ≤ op.now := hchron.1
        refine ⟨?_, hchron.2⟩
        intro y hy
        cases hy
        exact ⟨hb x rfl, h1⟩
    have step := processFallback_step b op.now op.capacity op.refillRate op.cost
      hcap hrate hcost hpre.1
    rw [traceFallback] at hp
    simp only [List.zip_cons_cons, List.mem_cons] at hp
    rcases hp with hp | hp
    · subst hp
      exact ⟨step.1, step.2.1, step.2.2.2⟩
    · refine ih (some (processFallback b op.now op.capacity op.refillRate op.cost).2)
        (fun o ho => hok o (List.mem_cons_of_mem _ ho)) ?_ ?_ p hp
      · show chronFrom _ ops
        rw [step.2.2.1]
        exact hpre.2
      · intro y hy
        cases hy
        exact step.1

/-- Claim C1, as stated, is false: a check-and-consume sequence in which
the clock regresses (second call's `now = 0` after a first call at
`now = 100`, both with capacity 10, refill rate 1, cost 5) drives the
stored token count to -95 < 0 and returns `remaining = -95 < 0`, because
neither backend clamps the elapsed time. -/
theorem c1_counterexample :
    traceFallback none [⟨100, 10, 1, 5⟩, ⟨0, 10, 1, 5⟩] =
      [(⟨true, .fin 5, 0⟩, ⟨5, 100⟩), (⟨false, .fin (-95), 100⟩, ⟨-95, 0⟩)] ∧
    (-95 : ℚ) < 0 ∧ (-95 : ℤ) < 0 := by
  refine ⟨?_, by norm_num, by norm_num⟩
  norm_num [traceFallback, processFallback, fallbackConsume]

/-- The bucket invariant along a whole Redis run. -/
theorem traceRedis_inv (ops : List Op) : ∀ (b : Option Bucket),
    (∀ op ∈ ops, OpOK op) → chronOK b ops → (∀ x ∈ b, 0 ≤ x.tokens) →
    ∀ p ∈ ops.zip (traceRedis b ops),
      0 ≤ p.2.2.tokens ∧ p.2.2.tokens ≤ p.1.capacity ∧ p.2.1.remaining.nonneg := by
  induction ops with
  | nil => intro b _ _ _ p hp; simp [traceRedis] at hp
  | cons op ops ih =>
    intro b hok hchron hb p hp
    obtain ⟨hcap, hrate, hcost⟩ := hok op (List.mem_cons_self op ops)
    have hpre : (∀ x ∈ b, 0 ≤ x.tokens ∧ x.lastRefill ≤ op.now) ∧ chronFrom op.now ops := by
      cases b with
      | none => exact ⟨by simp, hchron⟩
      | some x =>
        have h1 : x.lastRefill ≤ op.now := hchron.1
        refine ⟨?_, hchron.2⟩
        intro y hy
        cases hy
        exact ⟨hb x rfl, h1⟩
    have step := processRedis_step b op.now op.capacity op.refillRate op.cost
      hcap hrate hcost hpre.1
    rw [traceRedis] at hp
    simp only [List.zip_cons_cons, List.mem_cons] at hp
    rcases hp with hp | hp
    · subst hp
      exact ⟨step.1, step.2.1, step.2.2.2⟩
    · refine ih (some (processRedis b op.now op.capacity op.refillRate op.cost).2)
        (fun o ho => hok o (List.mem_cons_of_mem _ ho)) ?_ ?_ p hp
      · show chronFrom _ ops
        rw [step.2.2.1]
        exact hpre.2
      · intro y hy
        cases hy
        exact step.1

/-- Claim C1 (amended): for every sequence of check-and-consume
operations on a single fresh key, through either backend, with
non-negative capacity/rate/cost per operation AND non-decreasing clock
readings, the stored token count after every operation lies in
`[0, capacity supplied to that operation]` and every returned `remaining`
is non-negative.  (Without the clock monotonicity condition the claim is
false — see the counterexample.) -/
theorem c1_bucket_invariant (ops : List Op)
    (hok : ∀ op ∈ ops, OpOK op) (hchron : chronOK none ops) :
    (∀ p ∈ ops.zip (traceFallback none ops),
        0 ≤ p.2.2.tokens ∧ p.2.2.tokens ≤ p.1.capacity ∧ p.2.1.remaining.nonneg) ∧
    (∀ p ∈ ops.zip (traceRedis none ops),
        0 ≤ p.2.2.tokens ∧ p.2.2.tokens ≤ p.1.capacity ∧ p.2.1.remaining.nonneg) :=
  ⟨traceFallback_inv ops none hok hchron (by simp),
   traceRedis_inv ops none hok hchron (by simp)⟩

/-- Witness for `c1_bucket_invariant` at the concrete sequence
`[{now 100, cap 10, rate 1, cost 5}, {now 200, cap 8, rate 1, cost 5}]`. -/
theorem c1_bucket_invariant_witness :
    ((∀ op ∈ ([⟨100, 10, 1, 5⟩, ⟨200, 8, 1, 5⟩] : List Op), OpOK op) ∧
     chronOK none [⟨100, 10, 1, 5⟩, ⟨200, 8, 1, 5⟩]) ∧
    ((∀ p ∈ ([⟨100, 10, 1, 5⟩, ⟨200, 8, 1, 5⟩] : List Op).zip
          (traceFallback none [⟨100, 10, 1, 5⟩, ⟨200, 8, 1, 5⟩]),
        0 ≤ p.2.2.tokens ∧ p.2.2.tokens ≤ p.1.capacity ∧ p.2.1.remaining.nonneg) ∧
     (∀ p ∈ ([⟨100, 10, 1, 5⟩, ⟨200, 8, 1, 5⟩] : List Op).zip
          (traceRedis none [⟨100, 10, 1, 5⟩, ⟨200, 8, 1, 5⟩]),
        0 ≤ p.2.2.tokens ∧ p.2.2.tokens ≤ p.1.capacity ∧ p.2.1.remaining.nonneg)) := by
  have hok : ∀ op ∈ ([⟨100, 10, 1, 5⟩, ⟨200, 8, 1, 5⟩] : List Op), OpOK op := by
    intro op hop
    simp only [List.mem_cons, List.not_mem_nil, or_false] at hop
    rcases hop with rfl | rfl <;> exact ⟨by norm_num, by norm_num, by norm_num⟩
  have hchron : chronOK none ([⟨100, 10, 1, 5⟩, ⟨200, 8, 1, 5⟩] : List Op) := by
    exact ⟨by norm_num, trivial⟩
  exact ⟨⟨hok, hchron⟩, c1_bucket_invariant _ hok hchron⟩

/-- Claim C2, as stated, is false: at the stored state
`{tokens 5, lastRefill 100}` with `now = 0` (clock regression), capacity
10, rate 1 and cost 5, both backends store `tokens = -95` — they subtract
the negative elapsed time — while the spec's clamped arithmetic
(`elapsed = max(0, now - lastRefillAt)`) would store 0. -/
theorem c2_counterexample :
    (processFallback (some ⟨5, 100⟩) 0 10 1 5).2.tokens = -95 ∧
    (processFallbackClamped (some ⟨5, 100⟩) 0 10 1 5).2.tokens = 0 ∧
    (processRedis (some ⟨5, 100⟩) 0 10 1 5).2.tokens = -95 ∧
    (processRedisClamped (some ⟨5, 100⟩) 0 10 1 5).2.tokens = 0 := by
  refine ⟨?_, ?_, ?_, ?_⟩ <;>
    norm_num [processFallback, processFallbackClamped, processRedis,
      processRedisClamped, fallbackConsume, redisConsume]

/-- Claim C2 (amended): the refill arithmetic of both backends uses the
UNCLAMPED elapsed time `now - lastRefillAt`; it coincides with the spec's
clamped formula `elapsed = max(0, now - lastRefillAt)` exactly when the
clock has not regressed (`lastRefillAt ≤ now`). -/
theorem c2_clamped_agreement (b : Bucket) (now cap rate cost : ℚ)
    (h : b.lastRefill ≤ now) :
    processFallback (some b) now cap rate cost =
      processFallbackClamped (some b) now cap rate cost ∧
    processRedis (some b) now cap rate cost =
      processRedisClamped (some b) now cap rate cost := by
  have hm : max 0 (now - b.lastRefill) = now - b.lastRefill :=
    max_eq_right (by linarith)
  constructor <;>
    simp [processFallback, processFallbackClamped, processRedis,
      processRedisClamped, hm]

/-- Witness for `c2_clamped_agreement` at
`bucket = {tokens 5, lastRefill 100}`, `now = 200`. -/
theorem c2_clamped_agreement_witness :
    (Bucket.mk 5 100).lastRefill ≤ 200 ∧
    (processFallback (some ⟨5, 100⟩) 200 10 1 5 =
       processFallbackClamped (some ⟨5, 100⟩) 200 10 1 5 ∧
     processRedis (some ⟨5, 100⟩) 200 10 1 5 =
       processRedisClamped (some ⟨5, 100⟩) 200 10 1 5) :=
  ⟨by norm_num, c2_clamped_agreement ⟨5, 100⟩ 200 10 1 5 (by norm_num)⟩

/-- Claim C3, as stated, is false: for tier `premium` (multiplier 3) on
`/api/search` (`requests: 100, window: 60`), the refill rate passed to
the store is `floor(100 × 3) / 60 = 5` tokens/second, not the unscaled
`100 / 60` — the tier multiplier scales the refill speed. -/
theorem c3_counterexample :
    ((checkRateLimit "u1" "/api/search" "premium" "default" 1 1 0 .fallback true
        (fun _ => none)).2.2).map StoreCall.refillRate = some 5 ∧
    (5 : ℚ) ≠ 100 / 60 := by
  constructor
  · simp [checkRateLimit, LIMITS, endpointsTable, tierMultiplier, regionMultiplier]
    norm_num
  · norm_num

/-- Claim C3 (amended): on every call that reaches the store, the refill
rate passed to it is `floor(baseRequests × tierMult × regionMult ×
slowStartMult) / windowSeconds` — the tier, region and slow-start
multipliers scale the refill speed along with the capacity, not the
capacity only. -/
theorem c3_refill_rate_scaled (userId endpoint tier region : String)
    (requestCost slowM now : ℚ) (backend : Backend) (store : String → Option Bucket)
    (cfg : EndpointConfig) (htier : tier ≠ "unlimited")
    (hcfg : LIMITS.endpoints endpoint = some cfg) :
    ((checkRateLimit userId endpoint tier region requestCost slowM now backend true
        store).2.2).map StoreCall.refillRate =
      some ((⌊cfg.requests * tierMultiplier tier * regionMultiplier region * slowM⌋ : ℚ) /
        cfg.window) := by
  cases backend <;> simp [checkRateLimit, hcfg, htier]

/-- Witness for `c3_refill_rate_scaled` at tier `premium`, region
`default`, endpoint `/api/search`, slow-start multiplier 1. -/
theorem c3_refill_rate_scaled_witness :
    ("premium" ≠ "unlimited") ∧
    (LIMITS.endpoints "/api/search" = some ⟨100, 60, 20, 1⟩) ∧
    ((checkRateLimit "u2" "/api/search" "premium" "default" 1 1 0 .fallback true
        (fun _ => none)).2.2).map StoreCall.refillRate =
      some ((⌊(EndpointConfig.mk 100 60 20 1).requests * tierMultiplier "premium" *
          regionMultiplier "default" * 1⌋ : ℚ) / (EndpointConfig.mk 100 60 20 1).window) := by
  have h1 : ("premium" : String) ≠ "unlimited" := by simp
  have h2 : LIMITS.endpoints "/api/search" = some ⟨100, 60, 20, 1⟩ := by
    simp [LIMITS, endpointsTable]
  exact ⟨h1, h2,
    c3_refill_rate_scaled "u2" "/api/search" "premium" "default" 1 1 0 .fallback
      (fun _ => none) ⟨100, 60, 20, 1⟩ h1 h2⟩

/-- Claim C4, as stated, is false: when the store path errors on
`/api/checkout` with tier `free` (capacity including burst = 12), the
fail-open decision carries `remaining = 10` — `maxTokens`, the scaled
base capacity WITHOUT the burst portion — not the full capacity 12. -/
theorem c4_counterexample :
    (checkRateLimit "u3" "/api/checkout" "free" "default" 1 1 0 .fallback false
        (fun _ => none)).1.remaining = .fin 10 ∧
    Rem.fin 10 ≠ Rem.fin 12 := by
  constructor
  · simp [checkRateLimit, LIMITS, endpointsTable, tierMultiplier, regionMultiplier]
  · simp

/-- Claim C4 (amended): whenever the store path inside `checkRateLimit`
raises an unexpected error, the call fails open with
`{allowed: true, remaining: maxTokens, retryAfter: 0}` where `maxTokens`
is the multiplied base capacity EXCLUDING the burst portion; no store
call is made, the bucket store is untouched, and no error or denial
reaches the caller (the JS code logs the error to the console — it is
not delivered to the analytics recorder, whose `track` is skipped on this
path). -/
theorem c4_fail_open (userId endpoint tier region : String)
    (requestCost slowM now : ℚ) (backend : Backend) (store : String → Option Bucket)
    (cfg : EndpointConfig) (htier : tier ≠ "unlimited")
    (hcfg : LIMITS.endpoints endpoint = some cfg) :
    checkRateLimit userId endpoint tier region requestCost slowM now backend false store =
      (⟨true, .fin ⌊cfg.requests * tierMultiplier tier * regionMultiplier region * slowM⌋, 0⟩,
       store, none) := by
  simp [checkRateLimit, hcfg, htier]

/-- Witness for `c4_fail_open` on `/api/checkout`, tier `free`, slow-start
multiplier 1. -/
theorem c4_fail_open_witness :
    ("free" ≠ "unlimited") ∧
    (LIMITS.endpoints "/api/checkout" = some ⟨10, 60, 2, 5⟩) ∧
    checkRateLimit "u4" "/api/checkout" "free" "default" 1 1 0 .fallback false
        (fun _ => none) =
      (⟨true, .fin ⌊(EndpointConfig.mk 10 60 2 5).requests * tierMultiplier "free" *
          regionMultiplier "default" * 1⌋, 0⟩, (fun _ => none), none) := by
  have h1 : ("free" : String) ≠ "unlimited" := by simp
  have h2 : LIMITS.endpoints "/api/checkout" = some ⟨10, 60, 2, 5⟩ := by
    simp [LIMITS, endpointsTable]
  exact ⟨h1, h2,
    c4_fail_open "u4" "/api/checkout" "free" "default" 1 1 0 .fallback
      (fun _ => none) ⟨10, 60, 2, 5⟩ h1 h2⟩

/-- Claim C5 is refuted on the code's side: `updateConfig` with a valid
new configuration (both `endpoints` and `tiers` present) returns `true`
but leaves the active endpoint table unchanged — the JS method performs
no assignment, so subsequent `checkRateLimit` calls keep reading the
module-level `LIMITS` even though the new table differs from it; the
reject branch (`{endpoints: null}`) returns `false` as claimed. -/
theorem c5_update_config_noop :
    (updateConfig endpointsTable ⟨some newEndpointsTable, some newTiersTable⟩).1 = true ∧
    (updateConfig endpointsTable ⟨some newEndpointsTable, some newTiersTable⟩).2 =
      endpointsTable ∧
    newEndpointsTable "/api/search" ≠ endpointsTable "/api/search" ∧
    (updateConfig endpointsTable (⟨none, some newTiersTable⟩ : ConfigUpdate)).1 = false ∧
    (updateConfig endpointsTable (⟨none, some newTiersTable⟩ : ConfigUpdate)).2 =
      endpointsTable := by
  refine ⟨rfl, rfl, ?_, rfl, rfl⟩
  simp [newEndpointsTable, endpointsTable]

/-- Claim C6: the spec §8 checkout scenario.  With tier `free`, region
`default` and the slow-start multiplier resolved to 1, the store is
invoked with capacity 12, refill rate 10/60 and cost 5; the two first
instantaneous checks are admitted with remaining 7 then 2, and the third
is denied with `retryAfter = 18`. -/
theorem c6_checkout_scenario :
    c6check1.2.2 = some ⟨generateKey "alice" "/api/checkout", 1000, 12, 10/60, 5, 60⟩ ∧
    c6check1.1 = ⟨true, .fin 7, 0⟩ ∧
    c6check2.1 = ⟨true, .fin 2, 0⟩ ∧
    c6check3.1 = ⟨false, .fin 2, 18⟩ := by
  refine ⟨?_, ?_, ?_, ?_⟩ <;>
  · simp [c6check3, c6check2, c6check1, checkRateLimit, LIMITS, endpointsTable,
      tierMultiplier, regionMultiplier, processFallback, fallbackConsume]
    norm_num

/-- Claim C7: for every principal, endpoint, region, cost, clock, backend
choice and store-health outcome, a call with tier `unlimited` returns
`{allowed: true, remaining: ∞, retryAfter: 0}`, performs no store
operation, and leaves the bucket store of every key unchanged. -/
theorem c7_unlimited_bypass (userId endpoint region : String)
    (requestCost slowM now : ℚ) (backend : Backend) (storeOk : Bool)
    (store : String → Option Bucket) :
    checkRateLimit userId endpoint "unlimited" region requestCost slowM now backend
        storeOk store =
      (⟨true, .inf, 0⟩, store, none) := by
  simp [checkRateLimit]

/-- Claim C8, as stated, is false: with the configured slow start
(`durationSeconds: 300, startMultiplier: 0.5`), a stored first-seen
timestamp of 1000000 ms and a clock reading of 0 ms (clock regression),
the elapsed time is -1000 s and the returned multiplier is
`0.5 + (-1000/300) × 0.5 = -7/6` — below `startMultiplier` and negative,
outside the claimed interval `[0.5, 1.0]`. -/
theorem c8_counterexample :
    getSlowStartMultiplier LIMITS.slowStart (.ok (some 1000000)) (.ok ()) 0 = -7/6 ∧
    (-7/6 : ℚ) < LIMITS.slowStart.startMultiplier ∧ (-7/6 : ℚ) < 0 := by
  refine ⟨?_, by norm_num [LIMITS], by norm_num⟩
  norm_num [getSlowStartMultiplier, LIMITS]

/-- Claim C8 (amended): provided the clock reading is not earlier than
the stored first-seen timestamp, the slow-start multiplier lies in
`[startMultiplier, 1.0] = [0.5, 1.0]`: it is `startMultiplier` on the
first observation (successful write), `1.0` once
`elapsed ≥ durationSeconds`, and the linear interpolation
`startMultiplier + (elapsed/durationSeconds) × (1 − startMultiplier)`
otherwise.  (When the clock regresses below `firstSeenAt` the code
returns a value below `startMultiplier` — see the counterexample.) -/
theorem c8_slow_start_range (readRes : Except Unit (Option ℤ))
    (writeRes : Except Unit Unit) (nowMs : ℤ)
    (h : ∀ fs, readRes = .ok (some fs) → fs ≤ nowMs) :
    (1/2 ≤ getSlowStartMultiplier LIMITS.slowStart readRes writeRes nowMs ∧
     getSlowStartMultiplier LIMITS.slowStart readRes writeRes nowMs ≤ 1) ∧
    (readRes = .ok none → writeRes = .ok () →
      getSlowStartMultiplier LIMITS.slowStart readRes writeRes nowMs = 1/2) ∧
    (∀ fs, readRes = .ok (some fs) → 300 ≤ ((nowMs : ℚ) - (fs : ℚ)) / 1000 →
      getSlowStartMultiplier LIMITS.slowStart readRes writeRes nowMs = 1) ∧
    (∀ fs, readRes = .ok (some fs) → ((nowMs : ℚ) - (fs : ℚ)) / 1000 < 300 →
      getSlowStartMultiplier LIMITS.slowStart readRes writeRes nowMs =
        1/2 + (((nowMs : ℚ) - (fs : ℚ)) / 1000 / 300) * (1 - 1/2)) := by
  cases readRes with
  | error e =>
    refine ⟨⟨?_, ?_⟩, by simp, by simp, by simp⟩ <;>
      norm_num [getSlowStartMultiplier, LIMITS]
  | ok firstSeen =>
    cases firstSeen with
    | none =>
      cases writeRes with
      | error e =>
        refine ⟨⟨?_, ?_⟩, by simp, by simp, by simp⟩ <;>
          norm_num [getSlowStartMultiplier, LIMITS]
      | ok u =>
        refine ⟨⟨?_, ?_⟩, fun _ _ => ?_, by simp, by simp⟩ <;>
          norm_num [getSlowStartMultiplier, LIMITS]
    | some fs =>
      have hfs : (fs : ℚ) ≤ (nowMs : ℚ) := by exact_mod_cast h fs rfl
      have helapsed : 0 ≤ ((nowMs : ℚ) - (fs : ℚ)) / 1000 :=
        div_nonneg (by linarith) (by norm_num)
      by_cases hd : (300 : ℚ) ≤ ((nowMs : ℚ) - (fs : ℚ)) / 1000
      · have hval : getSlowStartMultiplier LIMITS.slowStart (.ok (some fs)) writeRes nowMs
            = 1 := by
          simp only [getSlowStartMultiplier, LIMITS]
          norm_num [hd]
        refine ⟨⟨?_, ?_⟩, by simp, fun g hg _ => ?_, fun g hg hlt => ?_⟩
        · rw [hval]; norm_num
        · rw [hval]
        · cases hg; exact hval
        · cases hg; exact absurd hd (not_le.mpr hlt)
      · have hlt : ((nowMs : ℚ) - (fs : ℚ)) / 1000 < 300 := not_le.mp hd
        have hval : getSlowStartMultiplier LIMITS.slowStart (.ok (some fs)) writeRes nowMs
            = 1/2 + (((nowMs : ℚ) - (fs : ℚ)) / 1000 / 300) * (1 - 1/2) := by
          simp only [getSlowStartMultiplier, LIMITS]
          norm_num [hd]
        refine ⟨⟨?_, ?_⟩, by simp, fun g hg hge => ?_, fun g hg _ => ?_⟩
        · rw [hval]
          have : 0 ≤ ((nowMs : ℚ) - (fs : ℚ)) / 1000 / 300 :=
            div_nonneg helapsed (by norm_num)
          linarith
        · rw [hval]
          have : ((nowMs : ℚ) - (fs : ℚ)) / 1000 / 300 < 1 := by
            rw [div_lt_one (by norm_num : (0:ℚ) < 300)]
            exact hlt
          linarith
        · cases hg; exact absurd hge hd
        · cases hg; exact hval

/-- Witness for `c8_slow_start_range` at `firstSeen = 1000 ms`,
`now = 151000 ms` (elapsed 150 s, mid-ramp). -/
theorem c8_slow_start_range_witness :
    (∀ fs : ℤ, (Except.ok (some 1000) : Except Unit (Option ℤ)) = .ok (some fs) →
        fs ≤ 151000) ∧
    ((1/2 ≤ getSlowStartMultiplier LIMITS.slowStart (.ok (some 1000)) (.ok ()) 151000 ∧
      getSlowStartMultiplier LIMITS.slowStart (.ok (some 1000)) (.ok ()) 151000 ≤ 1) ∧
     ((Except.ok (some 1000) : Except Unit (Option ℤ)) = .ok none →
        (Except.ok () : Except Unit Unit) = .ok () →
        getSlowStartMultiplier LIMITS.slowStart (.ok (some 1000)) (.ok ()) 151000 = 1/2) ∧
     (∀ fs, (Except.ok (some 1000) : Except Unit (Option ℤ)) = .ok (some fs) →
        300 ≤ (((151000 : ℤ) : ℚ) - (fs : ℚ)) / 1000 →
        getSlowStartMultiplier LIMITS.slowStart (.ok (some 1000)) (.ok ()) 151000 = 1) ∧
     (∀ fs, (Except.ok (some 1000) : Except Unit (Option ℤ)) = .ok (some fs) →
        (((151000 : ℤ) : ℚ) - (fs : ℚ)) / 1000 < 300 →
        getSlowStartMultiplier LIMITS.slowStart (.ok (some 1000)) (.ok ()) 151000 =
          1/2 + ((((151000 : ℤ) : ℚ) - (fs : ℚ)) / 1000 / 300) * (1 - 1/2))) := by
  have h : ∀ fs : ℤ, (Except.ok (some 1000) : Except Unit (Option ℤ)) = .ok (some fs) →
      fs ≤ 151000 := by
    intro fs hfs
    cases hfs
    norm_num
  exact ⟨h, c8_slow_start_range (.ok (some 1000)) (.ok ()) 151000 h⟩

/-- Claim C10: if the store read inside `getSlowStartMultiplier` throws,
or the read finds no record and the first-observation write throws, the
`catch` returns 1.0 — the full multiplier, not `startMultiplier` (which
is 0.5 < 1 in the configuration) — and no error propagates to the caller
(the embedding is a total function into ℚ). -/
theorem c10_slow_start_error_full_multiplier (cfg : SlowStartConfig)
    (writeRes : Except Unit Unit) (nowMs : ℤ) :
    getSlowStartMultiplier cfg (.error ()) writeRes nowMs = 1 ∧
    getSlowStartMultiplier cfg (.ok none) (.error ()) nowMs = 1 ∧
    LIMITS.slowStart.startMultiplier < 1 := by
  refine ⟨?_, ?_, by norm_num [LIMITS]⟩ <;>
  · unfold getSlowStartMultiplier
    split <;> rfl

/-- Updating one thread's program counter changes the admitted sum by the
difference of the indicator at that thread. -/
theorem admits_sum_update {n : ℕ} (f : Fin n → TPC) (i : Fin n) (v : TPC) :
    (∑ j : Fin n, if ((Function.update f i v) j).admits then (1 : ℕ) else 0) +
      (if (f i).admits then (1 : ℕ) else 0) =
    (∑ j : Fin n, if (f j).admits then (1 : ℕ) else 0) +
      (if v.admits then (1 : ℕ) else 0) := by
  have h1 := (Finset.add_sum_erase Finset.univ
    (fun j => if ((Function.update f i v) j).admits then (1 : ℕ) else 0)
    (Finset.mem_univ i)).symm
  have h2 := (Finset.add_sum_erase Finset.univ
    (fun j => if (f j).admits then (1 : ℕ) else 0) (Finset.mem_univ i)).symm
  have h3 : (∑ j in Finset.univ.erase i,
        if ((Function.update f i v) j).admits then (1 : ℕ) else 0) =
      ∑ j in Finset.univ.erase i, if (f j).admits then (1 : ℕ) else 0 :=
    Finset.sum_congr rfl fun j hj => by
      rw [Function.update_noteq (Finset.ne_of_mem_erase hj)]
  rw [h1, h3, Function.update_same, h2]
  ring

/-- The initial state (everyone waiting, no lock, untouched key) satisfies
the lock-model invariant for any non-negative capacity. -/
theorem lockInv_init (cap t : ℚ) (hcap : 0 ≤ cap) (n : ℕ) :
    LockInv cap t (initLockState n) := by
  refine ⟨?_, ?_, ?_, ?_, ?_, ?_, ?_⟩
  · intro i j hi
    simp [initLockState, TPC.inCS] at hi
  · intro _ i
    simp [initLockState, TPC.inCS]
  · intro b hb
    simp [initLockState] at hb
  · intro i a b h
    simp [initLockState] at h
  · simpa [admittedCount, initLockState, TPC.admits] using hcap
  · intro i a b h
    simp [initLockState] at h
  · intro _
    refine ⟨?_, ?_⟩
    · intro b hb
      simp [initLockState] at hb
    · intro _
      simp [admittedCount, initLockState, TPC.admits]

/-- Every atomic step of the lock model preserves the invariant. -/
theorem lockInv_step (cap rate t : ℚ) {n : ℕ} {s s' : LockState n}
    (hinv : LockInv cap t s) (hstep : LockStep cap rate t s s') :
    LockInv cap t s' := by
  cases hstep with
  | acquire i hpc hl =>
    have hnoCS : ∀ j, (s.tpc j).inCS = false := hinv.unlocked hl
    have hnw : ∀ j a b, s.tpc j ≠ TPC.writing a b := by
      intro j a b hj
      have := hnoCS j
      rw [hj] at this
      exact absurd this (by simp [TPC.inCS])
    have hA : admittedCount (⟨true, s.bucket, Function.update s.tpc i TPC.reading⟩ :
        LockState n) = admittedCount s := by
      have h := admits_sum_update s.tpc i TPC.reading
      rw [hpc] at h
      simpa [admittedCount, TPC.admits] using h
    refine ⟨?_, ?_, ?_, ?_, ?_, ?_, ?_⟩
    · intro j k hj hk
      dsimp only at hj hk
      by_cases hji : j = i
      · by_cases hki : k = i
        · rw [hji, hki]
        · rw [Function.update_noteq hki] at hk
          exact absurd hk (by simp [hnoCS k])
      · rw [Function.update_noteq hji] at hj
        exact absurd hj (by simp [hnoCS j])
    · intro h
      exact absurd h (by simp)
    · intro b hb
      exact hinv.bucketTime b hb
    · intro j a b hj
      dsimp only at hj
      by_cases hji : j = i
      · rw [hji, Function.update_same] at hj
        cases hj
      · rw [Function.update_noteq hji] at hj
        exact absurd hj (hnw j a b)
    · rw [hA]
      exact hinv.admitted_le
    · intro j a b hj
      dsimp only at hj
      by_cases hji : j = i
      · rw [hji, Function.update_same] at hj
        cases hj
      · rw [Function.update_noteq hji] at hj
        exact absurd hj (hnw j a b)
    · intro _
      have hst := hinv.storeTokens hnw
      rw [hA]
      exact hst
  | read i hpc =>
    have hiCS : (s.tpc i).inCS = true := by rw [hpc]; rfl
    have hnw : ∀ j a b, s.tpc j ≠ TPC.writing a b := by
      intro j a b hj
      have hjCS : (s.tpc j).inCS = true := by rw [hj]; rfl
      have hji := hinv.mutex j i hjCS hiCS
      rw [hji, hpc] at hj
      cases hj
    have hstore := hinv.storeTokens hnw
    have hAdnn : (0 : ℚ) ≤ (admittedCount s : ℚ) := by positivity
    -- the computed decision and write-back bucket
    have hkey : (processFallback s.bucket t cap rate 1).2.lastRefill = t ∧
        ((processFallback s.bucket t cap rate 1).1.allowed = true →
          (processFallback s.bucket t cap rate 1).2.tokens =
            cap - (admittedCount s : ℚ) - 1 ∧ (admittedCount s : ℚ) + 1 ≤ cap) ∧
        ((processFallback s.bucket t cap rate 1).1.allowed = false →
          (processFallback s.bucket t cap rate 1).2.tokens =
            cap - (admittedCount s : ℚ)) := by
      have htok0 : processFallback s.bucket t cap rate 1 =
          fallbackConsume (cap - (admittedCount s : ℚ)) t rate 1 := by
        cases hbkt : s.bucket with
        | none =>
          have hA0 : admittedCount s = 0 := hstore.2 hbkt
          show fallbackConsume cap t rate 1 = _
          rw [hA0]
          norm_num
        | some bk =>
          have hbk : bk.tokens = cap - (admittedCount s : ℚ) := hstore.1 bk hbkt
          have hbkt2 : bk.lastRefill = t := hinv.bucketTime bk hbkt
          show fallbackConsume (min cap (bk.tokens + (t - bk.lastRefill) * rate))
              t rate 1 = _
          rw [hbkt2, sub_self, zero_mul, add_zero, hbk, min_eq_right (by linarith)]
      rw [htok0]
      by_cases h1 : (1 : ℚ) ≤ cap - (admittedCount s : ℚ)
      · have hfc : fallbackConsume (cap - (admittedCount s : ℚ)) t rate 1 =
            (⟨true, .fin ⌊max 0 (cap - (admittedCount s : ℚ) - 1)⌋, 0⟩,
             ⟨max 0 (cap - (admittedCount s : ℚ) - 1), t⟩) := by
          rw [fallbackConsume, if_pos h1]
        rw [hfc]
        refine ⟨rfl, fun _ => ⟨?_, by linarith⟩, fun hfalse => by simp at hfalse⟩
        show max 0 (cap - (admittedCount s : ℚ) - 1) = cap - (admittedCount s : ℚ) - 1
        exact max_eq_right (by linarith)
      · have hfc : fallbackConsume (cap - (admittedCount s : ℚ)) t rate 1 =
            (⟨false, .fin ⌊cap - (admittedCount s : ℚ)⌋,
              max 0 ⌈(1 - (cap - (admittedCount s : ℚ))) / rate⌉⟩,
             ⟨cap - (admittedCount s : ℚ), t⟩) := by
          rw [fallbackConsume, if_neg h1]
        rw [hfc]
        exact ⟨rfl, fun htrue => by simp at htrue, fun _ => rfl⟩
    have hA : admittedCount (⟨s.lock, s.bucket,
        Function.update s.tpc i
          (TPC.writing (processFallback s.bucket t cap rate 1).1.allowed
            (processFallback s.bucket t cap rate 1).2)⟩ : LockState n) =
        admittedCount s +
          (if (processFallback s.bucket t cap rate 1).1.allowed then 1 else 0) := by
      have h := admits_sum_update s.tpc i
        (TPC.writing (processFallback s.bucket t cap rate 1).1.allowed
          (processFallback s.bucket t cap rate 1).2)
      rw [hpc] at h
      simpa [admittedCount, TPC.admits] using h
    refine ⟨?_, ?_, ?_, ?_, ?_, ?_, ?_⟩
    · intro j k hj hk
      dsimp only at hj hk
      have hj' : (s.tpc j).inCS = true := by
        by_cases hji : j = i
        · rw [hji]; exact hiCS
        · rw [Function.update_noteq hji] at hj; exact hj
      have hk' : (s.tpc k).inCS = true := by
        by_cases hki : k = i
        · rw [hki]; exact hiCS
        · rw [Function.update_noteq hki] at hk; exact hk
      exact hinv.mutex j k hj' hk'
    · intro h
      dsimp only at h
      have := hinv.unlocked h i
      rw [hpc] at this
      cases this
    · intro b hb
      exact hinv.bucketTime b hb
    · intro j a b hj
      dsimp only at hj
      by_cases hji : j = i
      · rw [hji, Function.update_same] at hj
        cases hj
        exact hkey.1
      · rw [Function.update_noteq hji] at hj
        exact absurd hj (hnw j a b)
    · rw [hA]
      cases hall : (processFallback s.bucket t cap rate 1).1.allowed with
      | true =>
        have h2 := (hkey.2.1 hall).2
        have hcast : ((admittedCount s + if (true = true) then 1 else 0 : ℕ) : ℚ) =
            (admittedCount s : ℚ) + 1 := by norm_num
        rw [hcast]
        exact h2
      | false =>
        have hcast : ((admittedCount s + if (false = true) then 1 else 0 : ℕ) : ℚ) =
            (admittedCount s : ℚ) := by norm_num
        rw [hcast]
        exact hinv.admitted_le
    · intro j a b hj
      dsimp only at hj
      by_cases hji : j = i
      · rw [hji, Function.update_same] at hj
        cases hj
        rw [hA]
        cases hall : (processFallback s.bucket t cap rate 1).1.allowed with
        | true =>
          have hT := (hkey.2.1 hall).1
          have hcast : ((admittedCount s + if (true = true) then 1 else 0 : ℕ) : ℚ) =
              (admittedCount s : ℚ) + 1 := by norm_num
          rw [hT, hcast]
          ring
        | false =>
          have hF := hkey.2.2 hall
          have hcast : ((admittedCount s + if (false = true) then 1 else 0 : ℕ) : ℚ) =
              (admittedCount s : ℚ) := by norm_num
          rw [hF, hcast]
      · rw [Function.update_noteq hji] at hj
        exact absurd hj (hnw j a b)
    · intro hno
      exfalso
      refine hno i (processFallback s.bucket t cap rate 1).1.allowed
        (processFallback s.bucket t cap rate 1).2 ?_
      dsimp only
      rw [Function.update_same]
  | write i a b hpc =>
    have hiCS : (s.tpc i).inCS = true := by rw [hpc]; rfl
    have hA : admittedCount (⟨s.lock, some b,
        Function.update s.tpc i (TPC.releasing a)⟩ : LockState n) = admittedCount s := by
      have h := admits_sum_update s.tpc i (TPC.releasing a)
      rw [hpc] at h
      simp only [TPC.admits] at h
      exact Nat.add_right_cancel h
    have hnw' : ∀ j a2 b2,
        Function.update s.tpc i (TPC.releasing a) j ≠ TPC.writing a2 b2 := by
      intro j a2 b2 hj
      by_cases hji : j = i
      · rw [hji, Function.update_same] at hj
        cases hj
      · rw [Function.update_noteq hji] at hj
        have hjCS : (s.tpc j).inCS = true := by rw [hj]; rfl
        have := hinv.mutex j i hjCS hiCS
        exact hji this
    refine ⟨?_, ?_, ?_, ?_, ?_, ?_, ?_⟩
    · intro j k hj hk
      dsimp only at hj hk
      have hj' : (s.tpc j).inCS = true := by
        by_cases hji : j = i
        · rw [hji]; exact hiCS
        · rw [Function.update_noteq hji] at hj; exact hj
      have hk' : (s.tpc k).inCS = true := by
        by_cases hki : k = i
        · rw [hki]; exact hiCS
        · rw [Function.update_noteq hki] at hk; exact hk
      exact hinv.mutex j k hj' hk'
    · intro h
      dsimp only at h
      have := hinv.unlocked h i
      rw [hpc] at this
      cases this
    · intro b2 hb2
      dsimp only at hb2
      cases hb2
      exact hinv.writerTime i a b hpc
    · intro j a2 b2 hj
      exact absurd hj (hnw' j a2 b2)
    · rw [hA]
      exact hinv.admitted_le
    · intro j a2 b2 hj
      exact absurd hj (hnw' j a2 b2)
    · intro _
      rw [hA]
      refine ⟨?_, ?_⟩
      · intro b2 hb2
        dsimp only at hb2
        cases hb2
        exact hinv.writerTokens i a _ hpc
      · intro habs
        dsimp only at habs
        cases habs
  | release i a hpc =>
    have hiCS : (s.tpc i).inCS = true := by rw [hpc]; rfl
    have hnoCS' : ∀ j, (Function.update s.tpc i (TPC.done a) j).inCS = false := by
      intro j
      by_cases hji : j = i
      · rw [hji, Function.update_same]; rfl
      · rw [Function.update_noteq hji]
        by_contra hcs
        have hjCS : (s.tpc j).inCS = true := by
          cases hval : (s.tpc j).inCS with
          | true => rfl
          | false => exact absurd hval hcs
        exact hji (hinv.mutex j i hjCS hiCS)
    have hnw : ∀ j a2 b2, s.tpc j ≠ TPC.writing a2 b2 := by
      intro j a2 b2 hj
      have hjCS : (s.tpc j).inCS = true := by rw [hj]; rfl
      have hji := hinv.mutex j i hjCS hiCS
      rw [hji, hpc] at hj
      cases hj
    have hA : admittedCount (⟨false, s.bucket,
        Function.update s.tpc i (TPC.done a)⟩ : LockState n) = admittedCount s := by
      have h := admits_sum_update s.tpc i (TPC.done a)
      rw [hpc] at h
      simp only [TPC.admits] at h
      exact Nat.add_right_cancel h
    refine ⟨?_, ?_, ?_, ?_, ?_, ?_, ?_⟩
    · intro j k hj hk
      dsimp only at hj hk
      have hfalse := hnoCS' j
      rw [hfalse] at hj
      cases hj
    · intro _ j
      exact hnoCS' j
    · intro b hb
      exact hinv.bucketTime b hb
    · intro j a2 b2 hj
      dsimp only at hj
      by_cases hji : j = i
      · rw [hji, Function.update_same] at hj
        cases hj
      · rw [Function.update_noteq hji] at hj
        exact absurd hj (hnw j a2 b2)
    · rw [hA]
      exact hinv.admitted_le
    · intro j a2 b2 hj
      dsimp only at hj
      by_cases hji : j = i
      · rw [hji, Function.update_same] at hj
        cases hj
      · rw [Function.update_noteq hji] at hj
        exact absurd hj (hnw j a2 b2)
    · intro _
      rw [hA]
      exact hinv.storeTokens hnw

/-- Claim C9: in the fallback's per-key lock model, every state reachable
by interleaving `n` simultaneous cost-1 check-and-consume calls on one
key satisfies (a) at most `cap` of the calls have been admitted — so for
`n > cap` simultaneous checks at capacity `cap`, at most `cap` are
admitted — and (b) at most one call is inside the lock-protected
read-refill-consume-write region, so no two concurrent calls ever read
the same pre-update token count. -/
theorem c9_linearized_admission_bound {n : ℕ} (cap rate t : ℚ) (hcap : 0 ≤ cap)
    (s : LockState n) (hreach : lockReachable cap rate t s) :
    ((admittedCount s : ℚ) ≤ cap) ∧
    (∀ i j : Fin n, (s.tpc i).inCS = true → (s.tpc j).inCS = true → i = j) := by
  have hinv : LockInv cap t s := by
    induction hreach with
    | refl => exact lockInv_init cap t hcap n
    | tail _ hstep ih => exact lockInv_step cap rate t ih hstep
  exact ⟨hinv.admitted_le, hinv.mutex⟩

/-- Witness for `c9_linearized_admission_bound`: two threads, capacity 1,
at the initial state. -/
theorem c9_linearized_admission_bound_witness :
    ((0 : ℚ) ≤ 1 ∧ lockReachable 1 0 0 (initLockState 2)) ∧
    (((admittedCount (initLockState 2) : ℚ) ≤ 1) ∧
     (∀ i j : Fin 2, ((initLockState 2).tpc i).inCS = true →
        ((initLockState 2).tpc j).inCS = true → i = j)) :=
  ⟨⟨by norm_num, Relation.ReflTransGen.refl⟩,
   c9_linearized_admission_bound 1 0 0 (by norm_num) (initLockState 2)
     Relation.ReflTransGen.refl⟩
